import Mathlib

/-!
# Verification of the chatnay messaging core (src/app.py)

A shallow embedding of the messaging subsystem of the Flask application
`src/app.py`: the data model (`User`, `Message`), the conversation view
(`chat`), the incremental polling endpoint (`get_messages`), message
sending (`send_message`), message/user deletion, the admin bootstrap
(`ensure_admin_exists`) and the admin profile update (`admin_settings`).

Modelling conventions:
* SQLAlchemy rows become Lean structures; the database session becomes an
  explicit `DB` value threaded through each operation.
* Auto-increment primary keys are modelled by `next_message_id` /
  `next_user_id` counters; rows are stored in insertion order, so the
  stored lists are ascending in `id` in every reachable state (`WF`).
* `datetime.utcnow()` timestamps are modelled as `Nat` values supplied by
  the caller (the `now` argument of `send_message`).
* `Message.query...order_by(Message.timestamp.asc())` is modelled as a
  stable insertion sort on the timestamp (`sortByTs`): rows that compare
  equal keep their stored (id) order.
* The external media store (Cloudinary) is a collaborator: the outcome of
  an upload is an input (`UploadResult`) of `send_message`.
* An uncommitted session change is discarded at the end of the request:
  an operation that returns without `db.session.commit()` leaves the
  stored `DB` unchanged, while the JSON/HTML response it already built
  from the mutated ORM objects does reflect the in-memory flips.
-/

namespace Chatnay

/-- A `User` row (the columns the messaging core reads and writes). -/
structure User where
  id : Nat
  username : String
  email : String
  is_admin : Bool
  is_active : Bool
  is_blocked : Bool
  bio : String
  deriving Repr, DecidableEq

/-- Translation of `User.can_chat`: `self.is_active and not self.is_blocked`. -/
def can_chat (u : User) : Bool :=
  u.is_active && !u.is_blocked

/-- A `Message` row. -/
structure Message where
  id : Nat
  content : Option String
  media_url : Option String
  media_type : Option String
  is_read : Bool
  timestamp : Nat
  sender_id : Nat
  receiver_id : Nat
  deriving Repr, DecidableEq

/-- The relational store: both tables plus the auto-increment counters. -/
structure DB where
  users : List User
  messages : List Message
  next_user_id : Nat
  next_message_id : Nat
  deriving Repr, DecidableEq

/-- Translation of `User.query.get(uid)`: look a user up by primary key. -/
def findUser (users : List User) (uid : Nat) : Option User :=
  users.find? (fun u => u.id == uid)

/-- Translation of `Message.query.get(mid)`: look a message up by primary key. -/
def findMessage (msgs : List Message) (mid : Nat) : Option Message :=
  msgs.find? (fun m => m.id == mid)

/-- Whether `User.query.filter_by(username=...).first()` is some row. -/
def usernameTaken (users : List User) (name : String) : Bool :=
  users.any (fun u => u.username == name)

/-- Whether `User.query.filter_by(email=...).first()` is some row. -/
def emailTaken (users : List User) (e : String) : Bool :=
  users.any (fun u => u.email == e)

/-- Python's `str.strip()`: drop leading and trailing whitespace.
(`String.trim` is extensionally the same but is defined by well-founded
recursion, which blocks kernel evaluation in concrete witnesses.) -/
def pyStrip (s : String) : String :=
  ⟨((s.data.dropWhile Char.isWhitespace).reverse.dropWhile Char.isWhitespace).reverse⟩

/-- Membership of a message in the `{viewer, counterpart}` conversation:
the filter
`((sender == viewer) & (receiver == counterpart)) | ((sender == counterpart) & (receiver == viewer))`. -/
def conversationWith (viewerId counterpartId : Nat) (m : Message) : Bool :=
  (m.sender_id == viewerId && m.receiver_id == counterpartId) ||
    (m.sender_id == counterpartId && m.receiver_id == viewerId)

/-! ## `ORDER BY timestamp ASC`

Modelled as a stable insertion sort on the timestamp: a row is inserted
before the first stored row with a strictly larger-or-equal... precisely,
before the first row whose timestamp it does not exceed, so rows with
equal timestamps keep their relative (storage) order. -/

/-- Stable insert of a message into a timestamp-sorted list. -/
def insertTs (m : Message) : List Message → List Message
  | [] => [m]
  | x :: xs => if m.timestamp ≤ x.timestamp then m :: x :: xs else x :: insertTs m xs

/-- Stable sort by ascending timestamp. -/
def sortByTs : List Message → List Message
  | [] => []
  | x :: xs => insertTs x (sortByTs xs)

/-- Strict lexicographic order on (timestamp, id). -/
def lexLt (a b : Message) : Prop :=
  a.timestamp < b.timestamp ∨ (a.timestamp = b.timestamp ∧ a.id < b.id)

/-! ## Conversation view: `GET /chat/<user_id>` -/

/-- Failure modes of the `chat` view: `get_or_404` misses, or the target
fails `can_chat` (flash + redirect to the dashboard). -/
inductive ChatError where
  | notFound
  | notReachable
  deriving Repr, DecidableEq

/-- The read-flip the `chat` view applies: it marks every stored message
with `receiver_id == current_user.id`, `sender_id == user_id` and
`is_read == False` as read. -/
def chatFlip (viewerId userId : Nat) (m : Message) : Message :=
  if m.receiver_id == viewerId && m.sender_id == userId && m.is_read == false then
    { m with is_read := true }
  else m

/-- The `chat` view: look up the counterpart (404 if absent), reject an
unreachable counterpart, query the conversation ordered by timestamp,
flip the unread incoming messages and commit.  The rendered message list
shows the flipped rows because the query and the flip loop share the same
ORM objects. -/
def chat (viewerId userId : Nat) (db : DB) :
    Except ChatError (List Message × DB) :=
  match findUser db.users userId with
  | none => .error .notFound
  | some target =>
    if !can_chat target then .error .notReachable
    else
      let rendered :=
        (sortByTs (db.messages.filter (conversationWith viewerId userId))).map
          (chatFlip viewerId userId)
      let committed := db.messages.map (chatFlip viewerId userId)
      .ok (rendered, { db with messages := committed })

/-! ## Incremental polling: `GET /get_messages/<user_id>?last_message_id=N` -/

/-- Translation of `request.args.get('last_message_id', 0, type=int)`: an absent or
unparsable query parameter falls back to the default `0`. -/
def parseCursor (raw : Option String) : Int :=
  match raw with
  | none => 0
  | some s => (s.toInt?).getD 0

/-- Membership in the polling window: conversation membership plus
`Message.id > last_message_id`. -/
def inWindow (viewerId userId : Nat) (lastSeenId : Int) (m : Message) : Bool :=
  conversationWith viewerId userId m && decide (lastSeenId < (m.id : Int))

/-- The flip `to_dict` observes: a returned message whose receiver is the
viewer and which is unread was set to read before serialization. -/
def readFlip (viewerId : Nat) (m : Message) : Message :=
  if m.receiver_id == viewerId && m.is_read == false then { m with is_read := true }
  else m

/-- The flip the commit persists, applied to the whole table: only rows
inside the polled window that are unread incoming rows change. -/
def windowFlip (viewerId userId : Nat) (lastSeenId : Int) (m : Message) : Message :=
  if inWindow viewerId userId lastSeenId m
      && m.receiver_id == viewerId && m.is_read == false then
    { m with is_read := true }
  else m

/-- Result of `get_messages`: the serialized messages, the stored state
after the request, and whether `db.session.commit()` ran. -/
structure GMResult where
  response : List Message
  db : DB
  committed : Bool
  deriving Repr, DecidableEq

/-- The `get_messages` view: query the conversation restricted to
`id > last_message_id` ordered by timestamp, flip the unread incoming
rows among them, commit only when at least one row was flipped, and
serialize the (now flipped) query result. -/
def get_messages (viewerId userId : Nat) (lastSeenId : Int) (db : DB) : GMResult :=
  let msgs := sortByTs (db.messages.filter (inWindow viewerId userId lastSeenId))
  let unread := msgs.filter (fun m => m.receiver_id == viewerId && m.is_read == false)
  let committed := !unread.isEmpty
  { response := msgs.map (readFlip viewerId)
    db :=
      if committed then
        { db with messages := db.messages.map (windowFlip viewerId userId lastSeenId) }
      else db
    committed := committed }

/-! ## Sending: `POST /send_message` -/

/-- A multipart file field (`request.files.get('file')`). -/
structure UploadFile where
  filename : String
  size : Nat
  deriving Repr, DecidableEq

/-- Outcome of `upload_to_cloudinary` — the media store is an external
collaborator, so its answer is an input of the operation. -/
inductive UploadResult where
  | success (url : String) (resourceType : String)
  | failure (e : String)
  deriving Repr, DecidableEq

/-- Truthiness of `file and file.filename`: a file part is present with a non-empty
filename. -/
def hasFile (file : Option UploadFile) : Bool :=
  match file with
  | none => false
  | some f => f.filename != ""

/-- The JSON outcomes of `send_message`. -/
inductive SendOutcome where
  | ok (m : Message)
  | missingReceiver
  | notReachable
  | empty
  | tooLarge
  | uploadFailed (e : String)
  deriving Repr, DecidableEq

/-- The `Message(...)` row `send_message` constructs: new primary key,
`content if content else None`, the media fields, `is_read` defaulting to
false and the server-assigned timestamp. -/
def mkMessage (senderId rid : Nat) (content : String) (mu mt : Option String)
    (now : Nat) (db : DB) : Message :=
  { id := db.next_message_id
    content := if content == "" then none else some content
    media_url := mu
    media_type := mt
    is_read := false
    timestamp := now
    sender_id := senderId
    receiver_id := rid }

/-- Translation of `db.session.add(message); db.session.commit()`. -/
def addMessage (msg : Message) (db : DB) : DB :=
  { db with
    messages := db.messages ++ [msg]
    next_message_id := db.next_message_id + 1 }

/-- The `send_message` view: validate the receiver, reject an empty
message (trimmed text empty and no attachment), upload any attachment,
then create and commit the `Message` row. -/
def send_message (senderId : Nat) (receiverId : Option Nat) (rawContent : String)
    (file : Option UploadFile) (upload : UploadResult) (now : Nat) (db : DB) :
    SendOutcome × DB :=
  match receiverId with
  | none => (.missingReceiver, db)
  | some rid =>
    match findUser db.users rid with
    | none => (.notReachable, db)
    | some receiver =>
      if !can_chat receiver then (.notReachable, db)
      else if pyStrip rawContent == "" && !hasFile file then (.empty, db)
      else
        match file with
        | none =>
          (.ok (mkMessage senderId rid (pyStrip rawContent) none none now db),
            addMessage (mkMessage senderId rid (pyStrip rawContent) none none now db) db)
        | some f =>
          if f.filename == "" then
            (.ok (mkMessage senderId rid (pyStrip rawContent) none none now db),
              addMessage (mkMessage senderId rid (pyStrip rawContent) none none now db) db)
          else if 16 * 1024 * 1024 < f.size then (.tooLarge, db)
          else
            match upload with
            | .failure e => (.uploadFailed e, db)
            | .success url rty =>
              (.ok (mkMessage senderId rid (pyStrip rawContent) (some url) (some rty) now db),
                addMessage (mkMessage senderId rid (pyStrip rawContent) (some url) (some rty) now db) db)

/-- The `@active_user_required` decorator: the request proceeds only when
the authenticated principal exists and has `is_active`; the decorator
never consults `is_blocked`. -/
def active_user_allows (db : DB) (viewerId : Nat) : Bool :=
  match findUser db.users viewerId with
  | none => false
  | some u => u.is_active

/-- The `send_message` view behind its `active_user_required` gate; `none` stands
for the redirect-to-login response. -/
def send_message_route (viewerId : Nat) (receiverId : Option Nat) (rawContent : String)
    (file : Option UploadFile) (upload : UploadResult) (now : Nat) (db : DB) :
    Option SendOutcome × DB :=
  if active_user_allows db viewerId then
    let r := send_message viewerId receiverId rawContent file upload now db
    (some r.1, r.2)
  else (none, db)

/-! ## Deletion: `POST /delete_message/<id>`, `/admin/user/<id>/delete`,
`POST /admin/delete_all_messages` -/

/-- Outcomes of `delete_message`. -/
inductive DeleteMsgOutcome where
  | ok
  | notFound
  | forbidden
  deriving Repr, DecidableEq

/-- The `delete_message` view: 404 when the row is absent; forbidden
unless the requester is the sender or an admin; otherwise the row is
deleted and committed (the best-effort Cloudinary destroy has no effect
on the store). -/
def delete_message (requesterId : Nat) (requesterIsAdmin : Bool) (messageId : Nat)
    (db : DB) : DeleteMsgOutcome × DB :=
  match findMessage db.messages messageId with
  | none => (.notFound, db)
  | some msg =>
    if msg.sender_id != requesterId && !requesterIsAdmin then (.forbidden, db)
    else (.ok, { db with messages := db.messages.filter (fun m => m.id != messageId) })

/-- Outcomes of `delete_user`. -/
inductive DeleteUserOutcome where
  | ok
  | notFound
  | forbidden
  deriving Repr, DecidableEq

/-- The `delete_user` view: 404 when the target is absent; refused when
the target is an admin; otherwise every message whose sender or receiver
is the target is deleted, then the user row, in one commit. -/
def delete_user (userId : Nat) (db : DB) : DeleteUserOutcome × DB :=
  match findUser db.users userId with
  | none => (.notFound, db)
  | some u =>
    if u.is_admin then (.forbidden, db)
    else
      (.ok,
        { db with
          messages :=
            db.messages.filter
              (fun m => !(m.sender_id == userId || m.receiver_id == userId))
          users := db.users.filter (fun v => v.id != userId) })

/-- The `delete_all_messages` view: `Message.query.delete()`. -/
def delete_all_messages (db : DB) : DB :=
  { db with messages := [] }

/-! ## Admin bootstrap and account management -/

/-- The well-known admin username baked into `ensure_admin_exists`. -/
def adminUsername : String := "nayla_asyifa"

/-- Translation of `ensure_admin_exists`: when no row has both the well-known username
and the admin flag, insert a fresh admin row (default flags:
`is_active = True`, `is_blocked = False`) and commit. -/
def ensure_admin_exists (db : DB) : DB :=
  match db.users.find? (fun u => u.username == adminUsername && u.is_admin) with
  | some _ => db
  | none =>
    { db with
      users :=
        db.users ++
          [{ id := db.next_user_id
             username := adminUsername
             email := "nayla@example.com"
             is_admin := true
             is_active := true
             is_blocked := false
             bio := "" }]
      next_user_id := db.next_user_id + 1 }

/-- Outcomes of `register`. -/
inductive RegisterOutcome where
  | ok
  | invalidForm
  | usernameTaken
  | emailTaken
  deriving Repr, DecidableEq

/-- The `register` view: form validation, uniqueness checks, then a new
non-admin row with the default flags. -/
def register (rawUsername rawEmail password confirm : String) (db : DB) :
    RegisterOutcome × DB :=
  if pyStrip rawUsername == "" || pyStrip rawEmail == "" ||
      password == "" || confirm == "" then
    (.invalidForm, db)
  else if (pyStrip rawUsername).length < 3 then (.invalidForm, db)
  else if password.length < 6 then (.invalidForm, db)
  else if password != confirm then (.invalidForm, db)
  else if usernameTaken db.users (pyStrip rawUsername) then (.usernameTaken, db)
  else if emailTaken db.users (pyStrip rawEmail) then (.emailTaken, db)
  else
    (.ok,
      { db with
        users :=
          db.users ++
            [{ id := db.next_user_id
               username := pyStrip rawUsername
               email := pyStrip rawEmail
               is_admin := false
               is_active := true
               is_blocked := false
               bio := "" }]
        next_user_id := db.next_user_id + 1 })

/-- The `toggle_block_user` view: refused on admins, otherwise the
target's `is_blocked` flag is inverted. -/
def toggle_block_user (userId : Nat) (db : DB) : DB :=
  match findUser db.users userId with
  | none => db
  | some u =>
    if u.is_admin then db
    else
      { db with
        users :=
          db.users.map
            (fun v => if v.id == userId then { v with is_blocked := !v.is_blocked } else v) }

/-- The `toggle_active_user` view: refused on admins, otherwise the
target's `is_active` flag is inverted. -/
def toggle_active_user (userId : Nat) (db : DB) : DB :=
  match findUser db.users userId with
  | none => db
  | some u =>
    if u.is_admin then db
    else
      { db with
        users :=
          db.users.map
            (fun v => if v.id == userId then { v with is_active := !v.is_active } else v) }

/-- The POST branch of `admin_settings` (username / email / bio update of
the requesting admin).  A uniqueness conflict redirects without
committing, so the store is unchanged; otherwise the new values are
committed. -/
def admin_settings (viewerId : Nat) (newUsername newEmail bio : String) (db : DB) :
    DB :=
  match findUser db.users viewerId with
  | none => db
  | some cu =>
    if !cu.is_admin then db
    else if newUsername != cu.username && usernameTaken db.users newUsername then db
    else if newEmail != cu.email && emailTaken db.users newEmail then db
    else
      { db with
        users :=
          db.users.map
            (fun v =>
              if v.id == viewerId then
                { v with username := newUsername, email := newEmail, bio := bio }
              else v) }

/-! ## The core operations as a transition system -/

/-- One client-driven request against the core, with all of its inputs. -/
inductive Op where
  | ensureAdmin
  | registerOp (username email password confirm : String)
  | chatOp (viewerId userId : Nat)
  | getMessagesOp (viewerId userId : Nat) (raw : Option String)
  | sendMessageOp (senderId : Nat) (receiverId : Option Nat) (content : String)
      (file : Option UploadFile) (upload : UploadResult) (now : Nat)
  | deleteMessageOp (requesterId : Nat) (requesterIsAdmin : Bool) (messageId : Nat)
  | deleteUserOp (userId : Nat)
  | toggleBlockOp (userId : Nat)
  | toggleActiveOp (userId : Nat)
  | deleteAllMessagesOp
  | adminSettingsOp (viewerId : Nat) (newUsername newEmail bio : String)
  deriving Repr

/-- Effect of one operation on the store. -/
def step (op : Op) (db : DB) : DB :=
  match op with
  | .ensureAdmin => ensure_admin_exists db
  | .registerOp u e p c => (register u e p c db).2
  | .chatOp v uid =>
    match chat v uid db with
    | .error _ => db
    | .ok r => r.2
  | .getMessagesOp v uid raw => (get_messages v uid (parseCursor raw) db).db
  | .sendMessageOp s rid content file upload now =>
    (send_message s rid content file upload now db).2
  | .deleteMessageOp rid adm mid => (delete_message rid adm mid db).2
  | .deleteUserOp uid => (delete_user uid db).2
  | .toggleBlockOp uid => toggle_block_user uid db
  | .toggleActiveOp uid => toggle_active_user uid db
  | .deleteAllMessagesOp => delete_all_messages db
  | .adminSettingsOp v nu ne b => admin_settings v nu ne b db

/-- The authenticated principal on whose behalf an operation reads a
conversation (the only operations that ever flip a read flag). -/
def opViewer : Op → Option Nat
  | .chatOp v _ => some v
  | .getMessagesOp v _ _ => some v
  | _ => none

/-- Well-formedness of a store: rows are listed in strictly ascending
primary-key order, every key is positive and below the corresponding
auto-increment counter, and the counters start at 1.  This holds of every
state the application can reach, because keys are handed out in
increasing order and rows are appended. -/
def WF (db : DB) : Prop :=
  db.messages.Pairwise (fun a b => a.id < b.id) ∧
    (∀ m ∈ db.messages, 1 ≤ m.id ∧ m.id < db.next_message_id) ∧
    db.users.Pairwise (fun a b => a.id < b.id) ∧
    (∀ u ∈ db.users, 1 ≤ u.id ∧ u.id < db.next_user_id) ∧
    1 ≤ db.next_message_id ∧ 1 ≤ db.next_user_id

instance (db : DB) : Decidable (WF db) := by
  unfold WF; infer_instance

/-- The admin invariant claimed by the spec: exactly one row has the
admin flag, and every admin row carries the well-known username. -/
def adminInv (db : DB) : Prop :=
  (db.users.filter (fun u => u.is_admin)).length = 1 ∧
    ∀ u ∈ db.users, u.is_admin → u.username = adminUsername

instance (db : DB) : Decidable (adminInv db) := by
  unfold adminInv; infer_instance

/-- The one operation shape that can move the admin row away from the
well-known username: an `admin_settings` POST by an admin whose submitted
username differs from the current one. -/
def renamesAdmin (op : Op) (db : DB) : Bool :=
  match op with
  | .adminSettingsOp vid nu _ _ =>
    match findUser db.users vid with
    | some u => u.is_admin && nu != u.username
    | none => false
  | _ => false

/-! ## Concrete sample data (used by the witnesses) -/

def aliceU : User :=
  { id := 1, username := "alice", email := "alice@example.com",
    is_admin := false, is_active := true, is_blocked := false, bio := "" }

def bobU : User :=
  { id := 2, username := "bob", email := "bob@example.com",
    is_admin := false, is_active := true, is_blocked := false, bio := "" }

/-- An unread message from bob (2) to alice (1). -/
def msgBA : Message :=
  { id := 1, content := some "hi", media_url := none, media_type := none,
    is_read := false, timestamp := 10, sender_id := 2, receiver_id := 1 }

/-- An unread message from alice (1) to bob (2). -/
def msgAB : Message :=
  { id := 2, content := some "yo", media_url := none, media_type := none,
    is_read := false, timestamp := 11, sender_id := 1, receiver_id := 2 }

def msgBAread : Message := { msgBA with is_read := true }

def sampleDB : DB :=
  { users := [aliceU, bobU], messages := [msgBA, msgAB],
    next_user_id := 3, next_message_id := 3 }

/-- An active but blocked account. -/
def carolU : User :=
  { id := 3, username := "carol", email := "carol@example.com",
    is_admin := false, is_active := true, is_blocked := true, bio := "" }

/-- A store whose third user is active yet blocked. -/
def blockedDB : DB :=
  { users := [aliceU, bobU, carolU], messages := [],
    next_user_id := 4, next_message_id := 1 }

/-- The store after alice opens her conversation with bob. -/
def sampleChatDB : DB := { sampleDB with messages := [msgBAread, msgAB] }

/-! ## C7: message immutability, monotone read flags -/

/-- Equality of all `Message` columns except `is_read`. -/
def sameExceptRead (m m' : Message) : Prop :=
  m'.id = m.id ∧ m'.content = m.content ∧ m'.media_url = m.media_url ∧
    m'.media_type = m.media_type ∧ m'.timestamp = m.timestamp ∧
    m'.sender_id = m.sender_id ∧ m'.receiver_id = m.receiver_id

/-! ## C8: the admin bootstrap invariant -/

/-- The store produced by first-run provisioning on an empty database. -/
def provisionedDB : DB :=
  ensure_admin_exists { users := [], messages := [], next_user_id := 1, next_message_id := 1 }

/-- The store after the admin renames their account through the
`admin_settings` POST. -/
def renamedDB : DB :=
  step (Op.adminSettingsOp 1 "alice" "nayla@example.com" "") provisionedDB

/-- The store after the next auto-provisioning pass. -/
def reprovisionedDB : DB := step Op.ensureAdmin renamedDB

/-- A well-known-admin store used by the witnesses. -/
def naylaU : User :=
  { id := 1, username := "nayla_asyifa", email := "nayla@example.com",
    is_admin := true, is_active := true, is_blocked := false, bio := "" }

def adminDB : DB :=
  { users := [naylaU, bobU], messages := [],
    next_user_id := 3, next_message_id := 1 }

/-! ## Theorems -/

theorem insertTs_perm (m : Message) (l : List Message) :
    List.Perm (insertTs m l) (m :: l) := by
  induction l with
  | nil => simp [insertTs]
  | cons x xs ih =>
    simp only [insertTs]
    split
    · exact List.Perm.refl _
    · exact List.Perm.trans (List.Perm.cons x ih) (List.Perm.swap m x xs)

theorem sortByTs_perm (l : List Message) : List.Perm (sortByTs l) l := by
  induction l with
  | nil => simp [sortByTs]
  | cons x xs ih =>
    exact List.Perm.trans (insertTs_perm x (sortByTs xs)) (List.Perm.cons x ih)

theorem mem_sortByTs {m : Message} {l : List Message} :
    m ∈ sortByTs l ↔ m ∈ l :=
  (sortByTs_perm l).mem_iff

theorem insertTs_sorted {m : Message} {l : List Message}
    (h : l.Pairwise (fun a b => a.timestamp ≤ b.timestamp)) :
    (insertTs m l).Pairwise (fun a b => a.timestamp ≤ b.timestamp) := by
  induction l with
  | nil => simp [insertTs]
  | cons x xs ih =>
    rcases List.pairwise_cons.mp h with ⟨hx, hxs⟩
    simp only [insertTs]
    split
    · rename_i hle
      refine List.pairwise_cons.mpr ⟨?_, h⟩
      intro b hb
      rcases List.mem_cons.mp hb with hb | hb
      · subst hb; exact hle
      · exact le_trans hle (hx _ hb)
    · rename_i hgt
      refine List.pairwise_cons.mpr ⟨?_, ih hxs⟩
      intro b hb
      rcases List.mem_cons.mp ((insertTs_perm m xs).mem_iff.mp hb) with hb | hb
      · subst hb; exact le_of_not_le hgt
      · exact hx _ hb

theorem sortByTs_sorted (l : List Message) :
    (sortByTs l).Pairwise (fun a b => a.timestamp ≤ b.timestamp) := by
  induction l with
  | nil => simp [sortByTs]
  | cons x xs ih => exact insertTs_sorted ih

/-- Stability: inserting a message whose id is below every stored message
with the same timestamp preserves the lexicographic chain. -/
theorem insertTs_lex {m : Message} {l : List Message}
    (h : l.Pairwise lexLt)
    (hts : l.Pairwise (fun a b => a.timestamp ≤ b.timestamp))
    (hid : ∀ y ∈ l, m.timestamp = y.timestamp → m.id < y.id) :
    (insertTs m l).Pairwise lexLt := by
  induction l with
  | nil => simp [insertTs]
  | cons x xs ih =>
    rcases List.pairwise_cons.mp h with ⟨hx, hxs⟩
    rcases List.pairwise_cons.mp hts with ⟨hxts, hxsts⟩
    simp only [insertTs]
    split
    · rename_i hle
      refine List.pairwise_cons.mpr ⟨?_, h⟩
      intro b hb
      rcases lt_or_eq_of_le hle with hlt | heq
      · rcases List.mem_cons.mp hb with hb | hb
        · subst hb; exact Or.inl hlt
        · exact Or.inl (lt_of_lt_of_le hlt (hxts _ hb))
      · rcases List.mem_cons.mp hb with hb | hb
        · subst hb; exact Or.inr ⟨heq, hid b (List.mem_cons_self b xs) heq⟩
        · have hmb : m.timestamp ≤ b.timestamp := (le_of_eq heq).trans (hxts _ hb)
          rcases lt_or_eq_of_le hmb with hlt | heq2
          · exact Or.inl hlt
          · exact Or.inr ⟨heq2, hid b (List.mem_cons_of_mem x hb) heq2⟩
    · rename_i hgt
      have hxm : x.timestamp < m.timestamp := lt_of_not_le hgt
      refine List.pairwise_cons.mpr ⟨?_, ih hxs hxsts
        (fun y hy hts' => hid y (List.mem_cons_of_mem x hy) hts')⟩
      intro b hb
      rcases List.mem_cons.mp ((insertTs_perm m xs).mem_iff.mp hb) with hb | hb
      · subst hb; exact Or.inl hxm
      · exact hx _ hb

/-- Stability of the sort: a list stored in ascending-id order sorts into
a strict lexicographic (timestamp, id) chain — ties keep id order. -/
theorem sortByTs_lex {l : List Message}
    (h : l.Pairwise (fun a b => a.id < b.id)) :
    (sortByTs l).Pairwise lexLt := by
  induction l with
  | nil => simp [sortByTs]
  | cons x xs ih =>
    rcases List.pairwise_cons.mp h with ⟨hx, hxs⟩
    exact insertTs_lex (ih hxs) (sortByTs_sorted xs)
      (fun y hy _ => hx y (mem_sortByTs.mp hy))

/-- The sort commutes with any per-row map that preserves the timestamp. -/
theorem insertTs_map {f : Message → Message}
    (hf : ∀ m, (f m).timestamp = m.timestamp) (m : Message) (l : List Message) :
    insertTs (f m) (l.map f) = (insertTs m l).map f := by
  induction l with
  | nil => simp [insertTs]
  | cons x xs ih =>
    simp only [List.map_cons, insertTs, hf]
    split
    · simp
    · simp [ih]

theorem sortByTs_map {f : Message → Message}
    (hf : ∀ m, (f m).timestamp = m.timestamp) (l : List Message) :
    sortByTs (l.map f) = (sortByTs l).map f := by
  induction l with
  | nil => simp [sortByTs]
  | cons x xs ih =>
    simp only [List.map_cons, sortByTs, ih]
    exact insertTs_map hf x (sortByTs xs)

/-! ## Helper lemmas -/

/-- In a list strictly ascending on a `Nat` key, the key determines the
element. -/
theorem pairwise_key_unique {α : Type} {k : α → Nat} {l : List α}
    (h : l.Pairwise (fun a b => k a < k b)) {a b : α}
    (ha : a ∈ l) (hb : b ∈ l) (hk : k a = k b) : a = b := by
  induction l with
  | nil => cases ha
  | cons x xs ih =>
    rcases List.pairwise_cons.mp h with ⟨hx, hxs⟩
    rcases List.mem_cons.mp ha with ha | ha <;> rcases List.mem_cons.mp hb with hb | hb
    · rw [ha, hb]
    · exact absurd (hk ▸ hx b hb) (by simp [ha])
    · exact absurd (hk ▸ hx a ha) (by simp [hb])
    · exact ih hxs ha hb

theorem chatFlip_fields (viewerId userId : Nat) (m : Message) :
    (chatFlip viewerId userId m).id = m.id ∧
      (chatFlip viewerId userId m).content = m.content ∧
      (chatFlip viewerId userId m).media_url = m.media_url ∧
      (chatFlip viewerId userId m).media_type = m.media_type ∧
      (chatFlip viewerId userId m).timestamp = m.timestamp ∧
      (chatFlip viewerId userId m).sender_id = m.sender_id ∧
      (chatFlip viewerId userId m).receiver_id = m.receiver_id := by
  unfold chatFlip; split <;> simp

theorem windowFlip_fields (viewerId userId : Nat) (lastSeenId : Int) (m : Message) :
    (windowFlip viewerId userId lastSeenId m).id = m.id ∧
      (windowFlip viewerId userId lastSeenId m).content = m.content ∧
      (windowFlip viewerId userId lastSeenId m).media_url = m.media_url ∧
      (windowFlip viewerId userId lastSeenId m).media_type = m.media_type ∧
      (windowFlip viewerId userId lastSeenId m).timestamp = m.timestamp ∧
      (windowFlip viewerId userId lastSeenId m).sender_id = m.sender_id ∧
      (windowFlip viewerId userId lastSeenId m).receiver_id = m.receiver_id := by
  unfold windowFlip; split <;> simp

/-! ## C1: the conversation view marks every incoming message read -/

/-- C1: after `getConversation(v, c)` succeeds, every message stored in
the `{v, c}` conversation whose receiver is `v` has `is_read = true`; the
operation flips all currently-stored unread incoming messages of that
conversation and commits the flips. -/
theorem chat_marks_all_incoming_read (viewerId userId : Nat) (db : DB)
    (msgs : List Message) (db' : DB)
    (h : chat viewerId userId db = .ok (msgs, db'))
    (m : Message) (hm : m ∈ db'.messages)
    (hconv : conversationWith viewerId userId m = true)
    (hrecv : m.receiver_id = viewerId) : m.is_read = true := by
  unfold chat at h
  cases hf : findUser db.users userId with
  | none => rw [hf] at h; cases h
  | some target =>
    rw [hf] at h
    by_cases hc : can_chat target = true
    · simp only [hc, Bool.not_true, Bool.false_eq_true, if_false, Except.ok.injEq,
        Prod.mk.injEq] at h
      obtain ⟨h1, h2⟩ := h
      rw [← h2] at hm
      simp only at hm
      rcases List.mem_map.mp hm with ⟨x, hx, rfl⟩
      by_cases hcond :
          (x.receiver_id == viewerId && x.sender_id == userId && x.is_read == false) = true
      · have hcond' : (x.receiver_id = viewerId ∧ x.sender_id = userId) ∧ x.is_read = false := by
          simpa only [Bool.and_eq_true, beq_iff_eq] using hcond
        simp [chatFlip, hcond'.1.1, hcond'.1.2, hcond'.2]
      · have hfx : chatFlip viewerId userId x = x := by
          unfold chatFlip; rw [if_neg hcond]
        rw [hfx] at hconv hrecv ⊢
        simp only [conversationWith, Bool.or_eq_true, Bool.and_eq_true, beq_iff_eq]
          at hconv
        have hsend : x.sender_id = userId := by
          rcases hconv with ⟨hs, hr⟩ | ⟨hs, hr⟩ <;> omega
        by_cases hread : x.is_read = true
        · exact hread
        · exact absurd
            (by simp [hrecv, hsend, Bool.eq_false_iff.mpr hread]) hcond
    · simp [hc] at h

/-! ## C2: the conversation view returns the conversation, sorted -/

/-- C2: a successful `getConversation(v, c)` renders exactly the messages
exchanged between the two users in either direction (their stored rows,
with the read-flip the view itself applied), sorted ascending by creation
timestamp with ties broken by message identifier. -/
theorem chat_conversation_sorted (viewerId userId : Nat) (db : DB)
    (hWF : db.messages.Pairwise (fun a b => a.id < b.id))
    (msgs : List Message) (db' : DB)
    (h : chat viewerId userId db = .ok (msgs, db')) :
    msgs.Perm ((db.messages.filter (conversationWith viewerId userId)).map
        (chatFlip viewerId userId)) ∧
      msgs.Pairwise lexLt := by
  unfold chat at h
  cases hf : findUser db.users userId with
  | none => rw [hf] at h; cases h
  | some target =>
    rw [hf] at h
    by_cases hc : can_chat target = true
    · simp only [hc, Bool.not_true, Bool.false_eq_true, if_false, Except.ok.injEq,
        Prod.mk.injEq] at h
      obtain ⟨hmsgs, -⟩ := h
      rw [← hmsgs]
      constructor
      · exact (sortByTs_perm _).map _
      · have hsub : (db.messages.filter (conversationWith viewerId userId)).Pairwise
            (fun a b => a.id < b.id) :=
          hWF.sublist (List.filter_sublist _)
        have hlex := sortByTs_lex hsub
        rw [List.pairwise_map]
        refine hlex.imp ?_
        intro a b hab
        unfold lexLt at hab ⊢
        rw [(chatFlip_fields viewerId userId a).1, (chatFlip_fields viewerId userId b).1,
          (chatFlip_fields viewerId userId a).2.2.2.2.1,
          (chatFlip_fields viewerId userId b).2.2.2.2.1]
        exact hab
    · simp [hc] at h

theorem chat_marks_all_incoming_read_witness : msgBAread.is_read = true :=
  chat_marks_all_incoming_read 1 2 sampleDB [msgBAread, msgAB] sampleChatDB
    rfl msgBAread (by decide) (by decide) (by decide)

theorem chat_conversation_sorted_witness :
    ([msgBAread, msgAB] : List Message).Perm
        ((sampleDB.messages.filter (conversationWith 1 2)).map (chatFlip 1 2)) ∧
      ([msgBAread, msgAB] : List Message).Pairwise lexLt :=
  chat_conversation_sorted 1 2 sampleDB (by decide) [msgBAread, msgAB] sampleChatDB
    rfl

/-! ## C3: the polling endpoint returns the window above the cursor -/

theorem readFlip_fields (viewerId : Nat) (m : Message) :
    (readFlip viewerId m).id = m.id ∧
      (readFlip viewerId m).content = m.content ∧
      (readFlip viewerId m).media_url = m.media_url ∧
      (readFlip viewerId m).media_type = m.media_type ∧
      (readFlip viewerId m).timestamp = m.timestamp ∧
      (readFlip viewerId m).sender_id = m.sender_id ∧
      (readFlip viewerId m).receiver_id = m.receiver_id := by
  unfold readFlip; split <;> simp

/-- C3: `fetchNewMessages` returns exactly the conversation messages with
identifier strictly above the cursor, ascending by creation timestamp (as
serialized after the view's own read-flip); an absent or unparsable
cursor parses to 0, and with cursor 0 the window is the full
conversation. -/
theorem get_messages_returns_window (viewerId userId : Nat) (lastSeenId : Int)
    (raw : Option String) (db : DB)
    (hpos : ∀ m ∈ db.messages, 1 ≤ m.id)
    (hraw : raw = none ∨ ∃ s, raw = some s ∧ s.toInt? = none) :
    (get_messages viewerId userId lastSeenId db).response.Perm
        ((db.messages.filter (inWindow viewerId userId lastSeenId)).map
          (readFlip viewerId)) ∧
      (get_messages viewerId userId lastSeenId db).response.Pairwise
        (fun a b => a.timestamp ≤ b.timestamp) ∧
      parseCursor raw = 0 ∧
      (get_messages viewerId userId (parseCursor raw) db).response.Perm
        ((db.messages.filter (conversationWith viewerId userId)).map
          (readFlip viewerId)) := by
  have hparse : parseCursor raw = 0 := by
    rcases hraw with rfl | ⟨s, rfl, hs⟩
    · rfl
    · simp [parseCursor, hs]
  have hfull : db.messages.filter (inWindow viewerId userId 0) =
      db.messages.filter (conversationWith viewerId userId) := by
    apply List.filter_congr
    intro m hm
    have h1 : 1 ≤ m.id := hpos m hm
    have : (0 : Int) < (m.id : Int) := by exact_mod_cast h1
    simp [inWindow, this]
  refine ⟨?_, ?_, hparse, ?_⟩
  · exact (sortByTs_perm _).map _
  · rw [show (get_messages viewerId userId lastSeenId db).response =
      (sortByTs (db.messages.filter (inWindow viewerId userId lastSeenId))).map
        (readFlip viewerId) from rfl]
    rw [List.pairwise_map]
    refine (sortByTs_sorted _).imp ?_
    intro a b hab
    rw [(readFlip_fields viewerId a).2.2.2.2.1, (readFlip_fields viewerId b).2.2.2.2.1]
    exact hab
  · rw [hparse]
    rw [show (get_messages viewerId userId 0 db).response =
      (sortByTs (db.messages.filter (inWindow viewerId userId 0))).map
        (readFlip viewerId) from rfl, hfull]
    exact (sortByTs_perm _).map _

theorem get_messages_returns_window_witness :
    (get_messages 1 2 1 sampleDB).response.Perm
        ((sampleDB.messages.filter (inWindow 1 2 1)).map (readFlip 1)) ∧
      (get_messages 1 2 1 sampleDB).response.Pairwise
        (fun a b => a.timestamp ≤ b.timestamp) ∧
      parseCursor none = 0 ∧
      (get_messages 1 2 (parseCursor none) sampleDB).response.Perm
        ((sampleDB.messages.filter (conversationWith 1 2)).map (readFlip 1)) :=
  get_messages_returns_window 1 2 1 none sampleDB (by decide) (Or.inl rfl)

/-! ## C4: the polling endpoint commits iff it flipped something -/

/-- C4: `fetchNewMessages` flips only returned messages whose receiver is
the viewer and which are unread (`windowFlip` is the identity on every
other row); the commit happens iff at least one such message exists; with
nothing to flip the store is left completely unchanged. -/
theorem get_messages_commit_frame (viewerId userId : Nat) (lastSeenId : Int)
    (db : DB) :
    ((get_messages viewerId userId lastSeenId db).committed = true ↔
      ∃ m ∈ db.messages, inWindow viewerId userId lastSeenId m = true ∧
        m.receiver_id = viewerId ∧ m.is_read = false) ∧
    ((get_messages viewerId userId lastSeenId db).committed = false →
      (get_messages viewerId userId lastSeenId db).db = db) ∧
    (∀ m ∈ db.messages,
      windowFlip viewerId userId lastSeenId m ∈
        (get_messages viewerId userId lastSeenId db).db.messages) ∧
    (get_messages viewerId userId lastSeenId db).db.users = db.users ∧
    (get_messages viewerId userId lastSeenId db).db.messages.length =
      db.messages.length ∧
    (get_messages viewerId userId lastSeenId db).db.next_message_id =
      db.next_message_id ∧
    (get_messages viewerId userId lastSeenId db).db.next_user_id =
      db.next_user_id := by
  have hmem : ∀ m : Message,
      (m ∈ sortByTs (db.messages.filter (inWindow viewerId userId lastSeenId)) ↔
        m ∈ db.messages ∧ inWindow viewerId userId lastSeenId m = true) := by
    intro m
    rw [mem_sortByTs, List.mem_filter]
  have hcomm : (get_messages viewerId userId lastSeenId db).committed = true ↔
      ∃ m ∈ db.messages, inWindow viewerId userId lastSeenId m = true ∧
        m.receiver_id = viewerId ∧ m.is_read = false := by
    rw [show (get_messages viewerId userId lastSeenId db).committed =
      !(((sortByTs (db.messages.filter (inWindow viewerId userId lastSeenId))).filter
          (fun m => m.receiver_id == viewerId && m.is_read == false)).isEmpty) from rfl]
    rw [Bool.not_eq_true', List.isEmpty_eq_false_iff_exists_mem]
    constructor
    · rintro ⟨m, hm⟩
      rw [List.mem_filter] at hm
      obtain ⟨hm1, hm2⟩ := hm
      rw [hmem] at hm1
      have hm2' : m.receiver_id = viewerId ∧ m.is_read = false := by
        simpa using hm2
      exact ⟨m, hm1.1, hm1.2, hm2'⟩
    · rintro ⟨m, hm, hw, hr, hu⟩
      refine ⟨m, List.mem_filter.mpr ⟨(hmem m).mpr ⟨hm, hw⟩, by simp [hr, hu]⟩⟩
  refine ⟨hcomm, ?_⟩
  have hdbshape : (get_messages viewerId userId lastSeenId db).db =
      (if (get_messages viewerId userId lastSeenId db).committed then
        { db with messages := db.messages.map (windowFlip viewerId userId lastSeenId) }
      else db) := rfl
  cases hb : (get_messages viewerId userId lastSeenId db).committed with
  | true =>
    rw [hb, if_pos rfl] at hdbshape
    refine ⟨?_, ?_, ?_, ?_, ?_, ?_⟩
    · intro hnc; simp at hnc
    · intro m hm; rw [hdbshape]; exact List.mem_map.mpr ⟨m, hm, rfl⟩
    · rw [hdbshape]
    · rw [hdbshape]; simp
    · rw [hdbshape]
    · rw [hdbshape]
  | false =>
    rw [hb, if_neg (by simp)] at hdbshape
    have hnone : ∀ m ∈ db.messages,
        ¬(inWindow viewerId userId lastSeenId m = true ∧
          m.receiver_id = viewerId ∧ m.is_read = false) := by
      intro m hm hcond
      have hct : (get_messages viewerId userId lastSeenId db).committed = true :=
        hcomm.mpr ⟨m, hm, hcond⟩
      rw [hb] at hct; simp at hct
    refine ⟨fun _ => hdbshape, ?_, ?_, ?_, ?_, ?_⟩
    · intro m hm
      have hid : windowFlip viewerId userId lastSeenId m = m := by
        unfold windowFlip
        split
        · rename_i hcond
          have hcond' : (inWindow viewerId userId lastSeenId m = true ∧
              m.receiver_id = viewerId) ∧ m.is_read = false := by
            simpa [Bool.and_eq_true, beq_iff_eq] using hcond
          exact absurd ⟨hcond'.1.1, hcond'.1.2, hcond'.2⟩ (hnone m hm)
        · rfl
      rw [hid, hdbshape]; exact hm
    · rw [hdbshape]
    · rw [hdbshape]
    · rw [hdbshape]
    · rw [hdbshape]

theorem get_messages_commit_frame_witness :
    ((get_messages 1 2 0 sampleDB).committed = true ↔
      ∃ m ∈ sampleDB.messages, inWindow 1 2 0 m = true ∧
        m.receiver_id = 1 ∧ m.is_read = false) ∧
    ((get_messages 1 2 0 sampleDB).committed = false →
      (get_messages 1 2 0 sampleDB).db = sampleDB) ∧
    (∀ m ∈ sampleDB.messages,
      windowFlip 1 2 0 m ∈ (get_messages 1 2 0 sampleDB).db.messages) ∧
    (get_messages 1 2 0 sampleDB).db.users = sampleDB.users ∧
    (get_messages 1 2 0 sampleDB).db.messages.length = sampleDB.messages.length ∧
    (get_messages 1 2 0 sampleDB).db.next_message_id = sampleDB.next_message_id ∧
    (get_messages 1 2 0 sampleDB).db.next_user_id = sampleDB.next_user_id :=
  get_messages_commit_frame 1 2 0 sampleDB

/-! ## C6: polling twice with the same cursor is idempotent -/

theorem inWindow_windowFlip (viewerId userId : Nat) (n : Int) (m : Message) :
    inWindow viewerId userId n (windowFlip viewerId userId n m) =
      inWindow viewerId userId n m := by
  obtain ⟨hid, -, -, -, -, hs, hr⟩ := windowFlip_fields viewerId userId n m
  unfold inWindow conversationWith
  rw [hid, hs, hr]

theorem readFlip_windowFlip (viewerId userId : Nat) (n : Int) (m : Message) :
    readFlip viewerId (windowFlip viewerId userId n m) = readFlip viewerId m := by
  unfold windowFlip
  split
  · rename_i hcond
    have hcond' : (inWindow viewerId userId n m = true ∧
        m.receiver_id = viewerId) ∧ m.is_read = false := by
      simpa [Bool.and_eq_true, beq_iff_eq] using hcond
    unfold readFlip
    simp [hcond'.1.2, hcond'.2]
  · rfl

/-- C6: calling `fetchNewMessages` again on the state the first call left
behind, with the same viewer, counterpart and cursor, serializes the
identical message sequence — the first call's only state change is the
read flag, and flipped rows serialize as read in both calls. -/
theorem get_messages_idempotent_response (viewerId userId : Nat) (lastSeenId : Int)
    (db : DB) :
    (get_messages viewerId userId lastSeenId
        (get_messages viewerId userId lastSeenId db).db).response =
      (get_messages viewerId userId lastSeenId db).response := by
  have hdbshape : (get_messages viewerId userId lastSeenId db).db =
      (if (get_messages viewerId userId lastSeenId db).committed then
        { db with messages := db.messages.map (windowFlip viewerId userId lastSeenId) }
      else db) := rfl
  cases hb : (get_messages viewerId userId lastSeenId db).committed with
  | false => rw [hb, if_neg (by simp)] at hdbshape; rw [hdbshape]
  | true =>
    rw [hb, if_pos rfl] at hdbshape
    rw [hdbshape]
    show (sortByTs ((db.messages.map (windowFlip viewerId userId lastSeenId)).filter
        (inWindow viewerId userId lastSeenId))).map (readFlip viewerId) =
      (sortByTs (db.messages.filter (inWindow viewerId userId lastSeenId))).map
        (readFlip viewerId)
    rw [List.filter_map]
    have hfe : db.messages.filter
        (inWindow viewerId userId lastSeenId ∘ windowFlip viewerId userId lastSeenId) =
        db.messages.filter (inWindow viewerId userId lastSeenId) :=
      List.filter_congr (fun m _ => inWindow_windowFlip viewerId userId lastSeenId m)
    rw [hfe]
    rw [sortByTs_map (fun m => (windowFlip_fields viewerId userId lastSeenId m).2.2.2.2.1)]
    rw [List.map_map]
    exact List.map_congr_left
      (fun m _ => readFlip_windowFlip viewerId userId lastSeenId m)

/-! ## C5: send failure modes leave the store untouched -/

/-- C5: `sendMessage` fails with `NotReachable` whenever the receiver is
absent or fails `can_chat`, and — for a reachable receiver — fails with
`EmptyMessage` whenever the trimmed text is empty and no attachment is
present; in each failure the store is returned unchanged (no row is
created). -/
theorem send_message_failure_modes (senderId rid : Nat) (rawContent : String)
    (file : Option UploadFile) (upload : UploadResult) (now : Nat) (db : DB) :
    ((findUser db.users rid = none ∨
        ∃ u, findUser db.users rid = some u ∧ can_chat u = false) →
      send_message senderId (some rid) rawContent file upload now db =
        (.notReachable, db)) ∧
    ((∃ u, findUser db.users rid = some u ∧ can_chat u = true) →
      pyStrip rawContent = "" → hasFile file = false →
      send_message senderId (some rid) rawContent file upload now db =
        (.empty, db)) := by
  constructor
  · rintro (hn | ⟨u, hu, hc⟩)
    · simp [send_message, hn]
    · simp [send_message, hu, hc]
  · rintro ⟨u, hu, hc⟩ htrim hfile
    simp [send_message, hu, hc, htrim, hfile]

theorem send_message_failure_modes_witness :
    send_message 1 (some 99) "hi" none (.failure "oops") 5 sampleDB =
      (.notReachable, sampleDB) :=
  (send_message_failure_modes 1 99 "hi" none (.failure "oops") 5 sampleDB).1
    (Or.inl (by decide))

/-! ## C10: the sender's own reachability is never checked -/

/-- C10: `send_message` never consults the sender's `is_blocked` flag:
an authenticated sender with `is_active = true` — even one with
`is_blocked = true` — sending valid text to a reachable receiver passes
the `active_user_required` gate and creates the row. -/
theorem send_ignores_sender_blocked (senderId rid : Nat) (rawContent : String)
    (upload : UploadResult) (now : Nat) (db : DB) (sender receiver : User)
    (hs : findUser db.users senderId = some sender)
    (hactive : sender.is_active = true)
    (hblocked : sender.is_blocked = true)
    (hr : findUser db.users rid = some receiver)
    (hchat : can_chat receiver = true)
    (hcontent : pyStrip rawContent ≠ "") :
    ∃ msg : Message,
      send_message_route senderId (some rid) rawContent none upload now db =
        (some (.ok msg),
          { db with
            messages := db.messages ++ [msg]
            next_message_id := db.next_message_id + 1 }) ∧
      msg.sender_id = senderId ∧ msg.receiver_id = rid ∧
      msg.is_read = false ∧ msg.content = some (pyStrip rawContent) ∧
      msg.media_url = none := by
  refine ⟨{ id := db.next_message_id, content := some (pyStrip rawContent),
            media_url := none, media_type := none, is_read := false,
            timestamp := now, sender_id := senderId, receiver_id := rid },
    ?_, rfl, rfl, rfl, rfl, rfl⟩
  unfold send_message_route active_user_allows
  rw [hs]
  simp only [hactive, if_true]
  unfold send_message
  simp [hr, hchat, hcontent, hasFile, mkMessage, addMessage]

theorem send_ignores_sender_blocked_witness :
    ∃ msg : Message,
      send_message_route 3 (some 1) "hello" none (.failure "x") 12 blockedDB =
        (some (.ok msg),
          { blockedDB with
            messages := blockedDB.messages ++ [msg]
            next_message_id := blockedDB.next_message_id + 1 }) ∧
      msg.sender_id = 3 ∧ msg.receiver_id = 1 ∧
      msg.is_read = false ∧ msg.content = some (pyStrip "hello") ∧
      msg.media_url = none :=
  send_ignores_sender_blocked 3 1 "hello" (.failure "x") 12 blockedDB
    carolU aliceU (by decide) (by decide) (by decide) (by decide) (by decide)
    (by decide)

theorem chatFlip_read_mono (v u : Nat) (m : Message) (h : m.is_read = true) :
    (chatFlip v u m).is_read = true := by
  unfold chatFlip; split
  · rfl
  · exact h

theorem windowFlip_read_mono (v u : Nat) (n : Int) (m : Message)
    (h : m.is_read = true) : (windowFlip v u n m).is_read = true := by
  unfold windowFlip; split
  · rfl
  · exact h

theorem chatFlip_flip_recv (v u : Nat) (m : Message)
    (h1 : (chatFlip v u m).is_read = true) (h2 : m.is_read = false) :
    m.receiver_id = v := by
  unfold chatFlip at h1
  by_cases hcond :
      (m.receiver_id == v && m.sender_id == u && m.is_read == false) = true
  · have hcond' : m.receiver_id = v ∧ m.sender_id = u ∧ m.is_read = false := by
      simpa [Bool.and_eq_true, beq_iff_eq, and_assoc] using hcond
    exact hcond'.1
  · rw [if_neg hcond] at h1
    rw [h1] at h2
    cases h2

theorem windowFlip_flip_recv (v u : Nat) (n : Int) (m : Message)
    (h1 : (windowFlip v u n m).is_read = true) (h2 : m.is_read = false) :
    m.receiver_id = v := by
  unfold windowFlip at h1
  by_cases hcond : (inWindow v u n m && m.receiver_id == v && m.is_read == false) = true
  · have hcond' : inWindow v u n m = true ∧ m.receiver_id = v ∧ m.is_read = false := by
      simpa [Bool.and_eq_true, beq_iff_eq, and_assoc] using hcond
    exact hcond'.2.1
  · rw [if_neg hcond] at h1
    rw [h1] at h2
    cases h2

/-- Generic per-message transition property for a map-shaped step whose
per-row function preserves every column but `is_read`, is monotone on the
flag, and flips only rows addressed to `v`. -/
theorem flip_step_prop {f : Message → Message} {v : Nat} (M : List Message)
    (hM : M.Pairwise (fun a b => a.id < b.id))
    (hf : ∀ m, sameExceptRead m (f m))
    (hmono : ∀ m, m.is_read = true → (f m).is_read = true)
    (hrecv : ∀ m, (f m).is_read = true → m.is_read = false → m.receiver_id = v) :
    ∀ m ∈ M, ∀ m' ∈ M.map f, m'.id = m.id →
      sameExceptRead m m' ∧ (m.is_read = true → m'.is_read = true) ∧
        (m'.is_read = true → m.is_read = false → m.receiver_id = v) := by
  intro m hm m' hm' hid
  rcases List.mem_map.mp hm' with ⟨x, hx, rfl⟩
  have hxm : x = m := by
    apply pairwise_key_unique (k := Message.id) hM hx hm
    rw [← (hf x).1, hid]
  subst hxm
  exact ⟨hf x, hmono x, hrecv x⟩

/-- Generic per-message transition property for a step that only removes
rows (or keeps them unchanged): nothing mutates, nothing flips. -/
theorem subset_step_prop {P : Prop} (M M' : List Message)
    (hsub : ∀ x ∈ M', x ∈ M)
    (hM : M.Pairwise (fun a b => a.id < b.id)) :
    ∀ m ∈ M, ∀ m' ∈ M', m'.id = m.id →
      sameExceptRead m m' ∧ (m.is_read = true → m'.is_read = true) ∧
        (m'.is_read = true → m.is_read = false → P) := by
  intro m hm m' hm' hid
  have hxm : m' = m := pairwise_key_unique (k := Message.id) hM (hsub m' hm') hm hid
  subst hxm
  exact ⟨⟨rfl, rfl, rfl, rfl, rfl, rfl, rfl⟩, fun h => h,
    fun h1 h2 => absurd h1 (by rw [h2]; simp)⟩

/-- Generic per-message transition property for appending a fresh row
whose key is above the whole table. -/
theorem append_step_prop {P : Prop} (M : List Message) (new : Message)
    (hM : M.Pairwise (fun a b => a.id < b.id))
    (hbound : ∀ m ∈ M, m.id < new.id) :
    ∀ m ∈ M, ∀ m' ∈ M ++ [new], m'.id = m.id →
      sameExceptRead m m' ∧ (m.is_read = true → m'.is_read = true) ∧
        (m'.is_read = true → m.is_read = false → P) := by
  intro m hm m' hm' hid
  rcases List.mem_append.mp hm' with hm' | hm'
  · exact subset_step_prop M M (fun x hx => hx) hM m hm m' hm' hid
  · rcases List.mem_singleton.mp hm' with rfl
    exact absurd (hid ▸ hbound m hm) (lt_irrefl _)

/-! Shape of each operation's effect on the store. -/

theorem chat_ok_db (v u : Nat) (db : DB) (msgs : List Message) (db' : DB)
    (h : chat v u db = .ok (msgs, db')) :
    db' = { db with messages := db.messages.map (chatFlip v u) } := by
  unfold chat at h
  cases hf : findUser db.users u with
  | none => rw [hf] at h; cases h
  | some target =>
    rw [hf] at h
    by_cases hc : can_chat target = true
    · simp only [hc, Bool.not_true, Bool.false_eq_true, if_false, Except.ok.injEq,
        Prod.mk.injEq] at h
      exact h.2.symm
    · simp [hc] at h

theorem step_chatOp (v u : Nat) (db : DB) :
    step (.chatOp v u) db =
      (match chat v u db with
        | .error _ => db
        | .ok r => r.2) := rfl

theorem chat_step_shape (v u : Nat) (db : DB) :
    step (.chatOp v u) db = db ∨
      step (.chatOp v u) db = { db with messages := db.messages.map (chatFlip v u) } := by
  rw [step_chatOp]
  cases h : chat v u db with
  | error e => exact Or.inl rfl
  | ok r =>
    right
    show r.2 = _
    exact chat_ok_db v u db r.1 r.2 (by rw [h])

theorem step_gmOp (v u : Nat) (raw : Option String) (db : DB) :
    step (.getMessagesOp v u raw) db = (get_messages v u (parseCursor raw) db).db := rfl

theorem gm_db_cases (v u : Nat) (n : Int) (db : DB) :
    (get_messages v u n db).db = db ∨
      (get_messages v u n db).db =
        { db with messages := db.messages.map (windowFlip v u n) } := by
  have hdbshape : (get_messages v u n db).db =
      (if (get_messages v u n db).committed then
        { db with messages := db.messages.map (windowFlip v u n) }
      else db) := rfl
  rw [hdbshape]
  split
  · exact Or.inr rfl
  · exact Or.inl rfl

theorem gm_step_shape (v u : Nat) (raw : Option String) (db : DB) :
    step (.getMessagesOp v u raw) db = db ∨
      step (.getMessagesOp v u raw) db =
        { db with
          messages := db.messages.map (windowFlip v u (parseCursor raw)) } := by
  rw [step_gmOp]
  exact gm_db_cases v u (parseCursor raw) db

theorem send_step_shape (s : Nat) (rid : Option Nat) (content : String)
    (file : Option UploadFile) (up : UploadResult) (now : Nat) (db : DB) :
    (send_message s rid content file up now db).2 = db ∨
      ∃ msg : Message,
        (send_message s rid content file up now db).2 = addMessage msg db ∧
          msg.id = db.next_message_id := by
  unfold send_message
  split
  · exact Or.inl rfl
  · split
    · exact Or.inl rfl
    · split
      · exact Or.inl rfl
      · split
        · exact Or.inl rfl
        · split
          · exact Or.inr ⟨_, rfl, rfl⟩
          · split
            · exact Or.inr ⟨_, rfl, rfl⟩
            · split
              · exact Or.inl rfl
              · split
                · exact Or.inl rfl
                · exact Or.inr ⟨_, rfl, rfl⟩

theorem delete_message_shape (r : Nat) (adm : Bool) (mid : Nat) (db : DB) :
    (delete_message r adm mid db).2 = db ∨
      (delete_message r adm mid db).2 =
        { db with messages := db.messages.filter (fun m => m.id != mid) } := by
  unfold delete_message
  split
  · exact Or.inl rfl
  · split
    · exact Or.inl rfl
    · exact Or.inr rfl

theorem delete_user_shape (uid : Nat) (db : DB) :
    (delete_user uid db).2 = db ∨
      ∃ u, findUser db.users uid = some u ∧ u.is_admin = false ∧
        (delete_user uid db).2 =
          { db with
            messages :=
              db.messages.filter
                (fun m => !(m.sender_id == uid || m.receiver_id == uid))
            users := db.users.filter (fun v => v.id != uid) } := by
  unfold delete_user
  split
  · exact Or.inl rfl
  · rename_i u heq
    split
    · exact Or.inl rfl
    · rename_i ha
      exact Or.inr ⟨u, heq, Bool.eq_false_iff.mpr ha, rfl⟩

theorem register_shape (un em pw cf : String) (db : DB) :
    (register un em pw cf db).2 = db ∨
      ∃ row : User,
        (register un em pw cf db).2 =
          { db with users := db.users ++ [row], next_user_id := db.next_user_id + 1 } ∧
          row.id = db.next_user_id ∧ row.is_admin = false := by
  unfold register
  split
  · exact Or.inl rfl
  · split
    · exact Or.inl rfl
    · split
      · exact Or.inl rfl
      · split
        · exact Or.inl rfl
        · split
          · exact Or.inl rfl
          · split
            · exact Or.inl rfl
            · exact Or.inr ⟨_, rfl, rfl, rfl⟩

theorem ensure_admin_shape (db : DB) :
    ensure_admin_exists db = db ∨
      ∃ row : User,
        ensure_admin_exists db =
          { db with users := db.users ++ [row], next_user_id := db.next_user_id + 1 } ∧
          row.id = db.next_user_id ∧ row.is_admin = true ∧
          row.username = adminUsername := by
  unfold ensure_admin_exists
  split
  · exact Or.inl rfl
  · exact Or.inr ⟨_, rfl, rfl, rfl, rfl⟩

theorem toggle_block_shape (uid : Nat) (db : DB) :
    toggle_block_user uid db = db ∨
      toggle_block_user uid db =
        { db with
          users := db.users.map
            (fun v => if v.id == uid then { v with is_blocked := !v.is_blocked } else v) } := by
  unfold toggle_block_user
  split
  · exact Or.inl rfl
  · split
    · exact Or.inl rfl
    · exact Or.inr rfl

theorem toggle_active_shape (uid : Nat) (db : DB) :
    toggle_active_user uid db = db ∨
      toggle_active_user uid db =
        { db with
          users := db.users.map
            (fun v => if v.id == uid then { v with is_active := !v.is_active } else v) } := by
  unfold toggle_active_user
  split
  · exact Or.inl rfl
  · split
    · exact Or.inl rfl
    · exact Or.inr rfl

theorem admin_settings_shape (vid : Nat) (nu ne b : String) (db : DB) :
    admin_settings vid nu ne b db = db ∨
      ∃ cu, findUser db.users vid = some cu ∧ cu.is_admin = true ∧
        admin_settings vid nu ne b db =
          { db with
            users := db.users.map
              (fun v =>
                if v.id == vid then { v with username := nu, email := ne, bio := b }
                else v) } := by
  unfold admin_settings
  split
  · exact Or.inl rfl
  · rename_i cu heq
    split
    · exact Or.inl rfl
    · rename_i ha
      split
      · exact Or.inl rfl
      · split
        · exact Or.inl rfl
        · have ha' : cu.is_admin = true := by simpa using ha
          exact Or.inr ⟨cu, heq, ha', rfl⟩

/-! Preservation of well-formedness by each store-shape. -/

theorem WF_map_msgs {f : Message → Message} (db : DB) (hWF : WF db)
    (hf : ∀ m, (f m).id = m.id) : WF { db with messages := db.messages.map f } := by
  obtain ⟨h1, h2, h3, h4, h5, h6⟩ := hWF
  refine ⟨?_, ?_, h3, h4, h5, h6⟩
  · rw [List.pairwise_map]
    exact h1.imp (fun hab => by rw [hf, hf]; exact hab)
  · intro m hm
    rcases List.mem_map.mp hm with ⟨x, hx, rfl⟩
    rw [hf]
    exact h2 x hx

theorem WF_filter_msgs (db : DB) (hWF : WF db) (p : Message → Bool) :
    WF { db with messages := db.messages.filter p } := by
  obtain ⟨h1, h2, h3, h4, h5, h6⟩ := hWF
  exact ⟨h1.sublist (List.filter_sublist _),
    fun m hm => h2 m (List.mem_of_mem_filter hm), h3, h4, h5, h6⟩

theorem WF_nil_msgs (db : DB) (hWF : WF db) : WF { db with messages := [] } := by
  obtain ⟨-, -, h3, h4, h5, h6⟩ := hWF
  refine ⟨List.Pairwise.nil, ?_, h3, h4, h5, h6⟩
  intro m hm
  cases hm

theorem WF_addMessage (db : DB) (hWF : WF db) (msg : Message)
    (hid : msg.id = db.next_message_id) : WF (addMessage msg db) := by
  obtain ⟨h1, h2, h3, h4, h5, h6⟩ := hWF
  refine ⟨?_, ?_, h3, h4, by show 1 ≤ db.next_message_id + 1; omega, h6⟩
  · refine List.pairwise_append.mpr ⟨h1, by simp, ?_⟩
    intro a ha b hb
    rcases List.mem_singleton.mp hb with rfl
    rw [hid]
    exact (h2 a ha).2
  · intro m hm
    rcases List.mem_append.mp hm with hm | hm
    · have := h2 m hm
      constructor
      · exact this.1
      · show m.id < db.next_message_id + 1
        omega
    · rcases List.mem_singleton.mp hm with rfl
      rw [hid]
      constructor
      · exact h5
      · show db.next_message_id < db.next_message_id + 1
        omega

theorem WF_map_users {g : User → User} (db : DB) (hWF : WF db)
    (hg : ∀ u, (g u).id = u.id) : WF { db with users := db.users.map g } := by
  obtain ⟨h1, h2, h3, h4, h5, h6⟩ := hWF
  refine ⟨h1, h2, ?_, ?_, h5, h6⟩
  · rw [List.pairwise_map]
    exact h3.imp (fun hab => by rw [hg, hg]; exact hab)
  · intro u hu
    rcases List.mem_map.mp hu with ⟨x, hx, rfl⟩
    rw [hg]
    exact h4 x hx

theorem WF_filter_users (db : DB) (hWF : WF db) (q : User → Bool) :
    WF { db with users := db.users.filter q } := by
  obtain ⟨h1, h2, h3, h4, h5, h6⟩ := hWF
  exact ⟨h1, h2, h3.sublist (List.filter_sublist _),
    fun u hu => h4 u (List.mem_of_mem_filter hu), h5, h6⟩

theorem WF_addUser (db : DB) (hWF : WF db) (u : User)
    (hid : u.id = db.next_user_id) :
    WF { db with users := db.users ++ [u], next_user_id := db.next_user_id + 1 } := by
  obtain ⟨h1, h2, h3, h4, h5, h6⟩ := hWF
  refine ⟨h1, h2, ?_, ?_, h5, by show 1 ≤ db.next_user_id + 1; omega⟩
  · refine List.pairwise_append.mpr ⟨h3, by simp, ?_⟩
    intro a ha b hb
    rcases List.mem_singleton.mp hb with rfl
    rw [hid]
    exact (h4 a ha).2
  · intro v hv
    rcases List.mem_append.mp hv with hv | hv
    · have := h4 v hv
      constructor
      · exact this.1
      · show v.id < db.next_user_id + 1
        omega
    · rcases List.mem_singleton.mp hv with rfl
      rw [hid]
      constructor
      · exact h6
      · show db.next_user_id < db.next_user_id + 1
        omega

theorem step_sendOp (s : Nat) (rid : Option Nat) (c : String) (f : Option UploadFile)
    (up : UploadResult) (now : Nat) (db : DB) :
    step (.sendMessageOp s rid c f up now) db = (send_message s rid c f up now db).2 := rfl

theorem step_deleteMessageOp (r : Nat) (adm : Bool) (mid : Nat) (db : DB) :
    step (.deleteMessageOp r adm mid) db = (delete_message r adm mid db).2 := rfl

theorem step_deleteUserOp (uid : Nat) (db : DB) :
    step (.deleteUserOp uid) db = (delete_user uid db).2 := rfl

theorem step_toggleBlockOp (uid : Nat) (db : DB) :
    step (.toggleBlockOp uid) db = toggle_block_user uid db := rfl

theorem step_toggleActiveOp (uid : Nat) (db : DB) :
    step (.toggleActiveOp uid) db = toggle_active_user uid db := rfl

theorem step_deleteAllOp (db : DB) :
    step .deleteAllMessagesOp db = { db with messages := [] } := rfl

theorem step_ensureAdminOp (db : DB) :
    step .ensureAdmin db = ensure_admin_exists db := rfl

theorem step_registerOp (un em pw cf : String) (db : DB) :
    step (.registerOp un em pw cf) db = (register un em pw cf db).2 := rfl

theorem step_adminSettingsOp (vid : Nat) (nu ne b : String) (db : DB) :
    step (.adminSettingsOp vid nu ne b) db = admin_settings vid nu ne b db := rfl

/-- C7: along every step of the transition system from a well-formed
store, a stored message keeps every column except `is_read` (and the
store stays well-formed); `is_read` transitions false→true only; and a
flip happens only in an operation whose requesting viewer is the
message's receiver. -/
theorem message_fields_immutable (op : Op) (db : DB) (hWF : WF db) :
    WF (step op db) ∧
      ∀ m ∈ db.messages, ∀ m' ∈ (step op db).messages, m'.id = m.id →
        sameExceptRead m m' ∧ (m.is_read = true → m'.is_read = true) ∧
          (m'.is_read = true → m.is_read = false →
            opViewer op = some m.receiver_id) := by
  have hid_sub : ∀ (db' : DB), WF db' → db'.messages = db.messages →
      (∀ m ∈ db.messages, ∀ m' ∈ db'.messages, m'.id = m.id →
        sameExceptRead m m' ∧ (m.is_read = true → m'.is_read = true) ∧
          (m'.is_read = true → m.is_read = false →
            opViewer op = some m.receiver_id)) := by
    intro db' _ hms m hm m' hm' hd
    rw [hms] at hm'
    obtain ⟨ha, hb, hc⟩ := subset_step_prop (P := False) db.messages db.messages
      (fun x hx => hx) hWF.1 m hm m' hm' hd
    exact ⟨ha, hb, fun x y => (hc x y).elim⟩
  cases op with
  | chatOp v u =>
    rcases chat_step_shape v u db with hs | hs <;> rw [hs]
    · exact ⟨hWF, hid_sub db hWF rfl⟩
    · refine ⟨WF_map_msgs db hWF (fun m => (chatFlip_fields v u m).1),
        fun m hm m' hm' hd => ?_⟩
      obtain ⟨ha, hb, hc⟩ := flip_step_prop (v := v) db.messages hWF.1
        (fun m => chatFlip_fields v u m) (chatFlip_read_mono v u)
        (chatFlip_flip_recv v u) m hm m' hm' hd
      exact ⟨ha, hb, fun x y => by simp [opViewer, hc x y]⟩
  | getMessagesOp v u raw =>
    rcases gm_step_shape v u raw db with hs | hs <;> rw [hs]
    · exact ⟨hWF, hid_sub db hWF rfl⟩
    · refine ⟨WF_map_msgs db hWF
        (fun m => (windowFlip_fields v u (parseCursor raw) m).1),
        fun m hm m' hm' hd => ?_⟩
      obtain ⟨ha, hb, hc⟩ := flip_step_prop (v := v) db.messages hWF.1
        (fun m => windowFlip_fields v u (parseCursor raw) m)
        (windowFlip_read_mono v u (parseCursor raw))
        (windowFlip_flip_recv v u (parseCursor raw)) m hm m' hm' hd
      exact ⟨ha, hb, fun x y => by simp [opViewer, hc x y]⟩
  | sendMessageOp s rid content file upload now =>
    rw [step_sendOp]
    rcases send_step_shape s rid content file upload now db with hs | ⟨msg, hs, hmid⟩ <;>
      rw [hs]
    · exact ⟨hWF, hid_sub db hWF rfl⟩
    · refine ⟨WF_addMessage db hWF msg hmid, fun m hm m' hm' hd => ?_⟩
      obtain ⟨ha, hb, hc⟩ := append_step_prop (P := False) db.messages msg hWF.1
        (fun m hm => by rw [hmid]; exact (hWF.2.1 m hm).2) m hm m' hm' hd
      exact ⟨ha, hb, fun x y => (hc x y).elim⟩
  | deleteMessageOp r adm mid =>
    rw [step_deleteMessageOp]
    rcases delete_message_shape r adm mid db with hs | hs <;> rw [hs]
    · exact ⟨hWF, hid_sub db hWF rfl⟩
    · refine ⟨WF_filter_msgs db hWF _, fun m hm m' hm' hd => ?_⟩
      obtain ⟨ha, hb, hc⟩ := subset_step_prop (P := False) db.messages
        (db.messages.filter (fun m => m.id != mid))
        (fun x hx => List.mem_of_mem_filter hx) hWF.1 m hm m' hm' hd
      exact ⟨ha, hb, fun x y => (hc x y).elim⟩
  | deleteUserOp uid =>
    rw [step_deleteUserOp]
    rcases delete_user_shape uid db with hs | ⟨u, -, -, hs⟩ <;> rw [hs]
    · exact ⟨hWF, hid_sub db hWF rfl⟩
    · refine ⟨WF_filter_users { db with messages := _ } (WF_filter_msgs db hWF _) _,
        fun m hm m' hm' hd => ?_⟩
      obtain ⟨ha, hb, hc⟩ := subset_step_prop (P := False) db.messages
        (db.messages.filter (fun m => !(m.sender_id == uid || m.receiver_id == uid)))
        (fun x hx => List.mem_of_mem_filter hx) hWF.1 m hm m' hm' hd
      exact ⟨ha, hb, fun x y => (hc x y).elim⟩
  | deleteAllMessagesOp =>
    rw [step_deleteAllOp]
    refine ⟨WF_nil_msgs db hWF, fun m hm m' hm' hd => ?_⟩
    cases hm'
  | ensureAdmin =>
    rw [step_ensureAdminOp]
    rcases ensure_admin_shape db with hs | ⟨row, hs, hrid, -, -⟩ <;> rw [hs]
    · exact ⟨hWF, hid_sub db hWF rfl⟩
    · exact ⟨WF_addUser db hWF row hrid, hid_sub _ (WF_addUser db hWF row hrid) rfl⟩
  | registerOp un em pw cf =>
    rw [step_registerOp]
    rcases register_shape un em pw cf db with hs | ⟨row, hs, hrid, -⟩ <;> rw [hs]
    · exact ⟨hWF, hid_sub db hWF rfl⟩
    · exact ⟨WF_addUser db hWF row hrid, hid_sub _ (WF_addUser db hWF row hrid) rfl⟩
  | toggleBlockOp uid =>
    rw [step_toggleBlockOp]
    rcases toggle_block_shape uid db with hs | hs <;> rw [hs]
    · exact ⟨hWF, hid_sub db hWF rfl⟩
    · have hwf' := WF_map_users db hWF
        (g := fun v => if v.id == uid then { v with is_blocked := !v.is_blocked } else v)
        (fun u => by dsimp only; split <;> rfl)
      exact ⟨hwf', hid_sub _ hwf' rfl⟩
  | toggleActiveOp uid =>
    rw [step_toggleActiveOp]
    rcases toggle_active_shape uid db with hs | hs <;> rw [hs]
    · exact ⟨hWF, hid_sub db hWF rfl⟩
    · have hwf' := WF_map_users db hWF
        (g := fun v => if v.id == uid then { v with is_active := !v.is_active } else v)
        (fun u => by dsimp only; split <;> rfl)
      exact ⟨hwf', hid_sub _ hwf' rfl⟩
  | adminSettingsOp vid nu ne b =>
    rw [step_adminSettingsOp]
    rcases admin_settings_shape vid nu ne b db with hs | ⟨cu, -, -, hs⟩ <;> rw [hs]
    · exact ⟨hWF, hid_sub db hWF rfl⟩
    · have hwf' := WF_map_users db hWF
        (g := fun v => if v.id == vid then { v with username := nu, email := ne, bio := b } else v)
        (fun u => by dsimp only; split <;> rfl)
      exact ⟨hwf', hid_sub _ hwf' rfl⟩

theorem message_fields_immutable_witness : WF (step (Op.chatOp 1 2) sampleDB) :=
  (message_fields_immutable (Op.chatOp 1 2) sampleDB (by decide)).1

/-- C8 counterexample: an `admin_settings` username change moves the sole
admin away from the well-known username (so the claimed invariant fails
in a reachable state), and the next auto-provisioning pass then creates a
second `is_admin` account. -/
theorem admin_invariant_counterexample :
    adminInv provisionedDB ∧
      ¬adminInv renamedDB ∧
      (reprovisionedDB.users.filter (fun u => u.is_admin)).length = 2 := by
  decide

theorem adminInv_users_map (db : DB) (hInv : adminInv db) {g : User → User}
    (hadm : ∀ u ∈ db.users, (g u).is_admin = u.is_admin)
    (hname : ∀ u ∈ db.users, u.is_admin = true → (g u).username = u.username) :
    adminInv { db with users := db.users.map g } := by
  obtain ⟨hcount, hall⟩ := hInv
  constructor
  · show ((db.users.map g).filter (fun u => u.is_admin)).length = 1
    have h1 : (db.users.map g).filter (fun u => u.is_admin) =
        (db.users.filter ((fun u => u.is_admin) ∘ g)).map g := List.filter_map _ _
    have h2 : db.users.filter ((fun u => u.is_admin) ∘ g) =
        db.users.filter (fun u => u.is_admin) :=
      List.filter_congr (fun u hu => hadm u hu)
    rw [h1, h2, List.length_map]
    exact hcount
  · intro u hu hadm'
    rcases List.mem_map.mp hu with ⟨x, hx, rfl⟩
    have hxadm : x.is_admin = true := by rw [← hadm x hx]; exact hadm'
    rw [hname x hx hxadm]
    exact hall x hx hxadm

theorem adminInv_users_filter (db : DB) (hInv : adminInv db) {q : User → Bool}
    (hq : ∀ u ∈ db.users, u.is_admin = true → q u = true) :
    adminInv { db with users := db.users.filter q } := by
  obtain ⟨hcount, hall⟩ := hInv
  constructor
  · show ((db.users.filter q).filter (fun u => u.is_admin)).length = 1
    have h1 : (db.users.filter q).filter (fun u => u.is_admin) =
        db.users.filter (fun u => u.is_admin && q u) := by
      rw [List.filter_filter]
    have h2 : db.users.filter (fun u => u.is_admin && q u) =
        db.users.filter (fun u => u.is_admin) := by
      apply List.filter_congr
      intro u hu
      cases ha : u.is_admin with
      | true => rw [hq u hu ha]; rfl
      | false => simp [ha]
    rw [h1, h2]
    exact hcount
  · intro u hu ha
    exact hall u (List.mem_of_mem_filter hu) ha

theorem adminInv_users_append_nonadmin (db : DB) (hInv : adminInv db) (row : User)
    (hrow : row.is_admin = false) :
    adminInv { db with users := db.users ++ [row], next_user_id := db.next_user_id + 1 } := by
  obtain ⟨hcount, hall⟩ := hInv
  constructor
  · show ((db.users ++ [row]).filter (fun u => u.is_admin)).length = 1
    rw [List.filter_append]
    have : [row].filter (fun u => u.is_admin) = [] := by simp [hrow]
    rw [this, List.append_nil]
    exact hcount
  · intro u hu ha
    rcases List.mem_append.mp hu with hu | hu
    · exact hall u hu ha
    · rcases List.mem_singleton.mp hu with rfl
      rw [ha] at hrow
      cases hrow

theorem ensure_admin_of_inv (db : DB) (hInv : adminInv db) :
    ensure_admin_exists db = db := by
  unfold ensure_admin_exists
  cases hf : db.users.find? (fun u => u.username == adminUsername && u.is_admin) with
  | some _ => rfl
  | none =>
    exfalso
    obtain ⟨hcount, hall⟩ := hInv
    have hex : ∃ u ∈ db.users, u.is_admin = true := by
      rcases hlen : db.users.filter (fun u => u.is_admin) with _ | ⟨u, rest⟩
      · rw [hlen] at hcount; cases hcount
      · have hu : u ∈ db.users.filter (fun u => u.is_admin) := by
          rw [hlen]; exact List.mem_cons_self u rest
        exact ⟨u, List.mem_of_mem_filter hu, by simpa using (List.mem_filter.mp hu).2⟩
    obtain ⟨u, hu, hadm⟩ := hex
    have hnone := List.find?_eq_none.mp hf u hu
    apply hnone
    simp [hall u hu hadm, hadm]

/-- C8 (amended): after provisioning, exactly one account carries the
admin flag and every admin account carries the well-known username; every
core operation other than an `admin_settings` request that changes the
admin's username preserves this; and auto-provisioning re-creates an
admin row with the well-known username whenever no account holds both. -/
theorem admin_invariant_amended (op : Op) (db db₀ : DB) (hWF : WF db)
    (hInv : adminInv db) (hNoRename : renamesAdmin op db = false)
    (hMissing : ∀ u ∈ db₀.users, ¬(u.username = adminUsername ∧ u.is_admin = true)) :
    adminInv (step op db) ∧
      ∃ u ∈ (ensure_admin_exists db₀).users,
        u.username = adminUsername ∧ u.is_admin = true := by
  constructor
  · cases op with
    | chatOp v u =>
      rcases chat_step_shape v u db with hs | hs <;> rw [hs] <;> exact hInv
    | getMessagesOp v u raw =>
      rcases gm_step_shape v u raw db with hs | hs <;> rw [hs] <;> exact hInv
    | sendMessageOp s rid content file upload now =>
      rw [step_sendOp]
      rcases send_step_shape s rid content file upload now db with hs | ⟨msg, hs, -⟩ <;>
          rw [hs] <;> exact hInv
    | deleteMessageOp r adm mid =>
      rw [step_deleteMessageOp]
      rcases delete_message_shape r adm mid db with hs | hs <;> rw [hs] <;> exact hInv
    | deleteAllMessagesOp =>
      rw [step_deleteAllOp]; exact hInv
    | ensureAdmin =>
      rw [step_ensureAdminOp, ensure_admin_of_inv db hInv]; exact hInv
    | registerOp un em pw cf =>
      rw [step_registerOp]
      rcases register_shape un em pw cf db with hs | ⟨row, hs, -, hrow⟩ <;> rw [hs]
      · exact hInv
      · exact adminInv_users_append_nonadmin db hInv row hrow
    | toggleBlockOp uid =>
      rw [step_toggleBlockOp]
      rcases toggle_block_shape uid db with hs | hs <;> rw [hs]
      · exact hInv
      · exact adminInv_users_map db hInv
          (fun u _ => by rcases Bool.dichotomy (u.id == uid) with h | h <;> simp [h])
          (fun u _ _ => by rcases Bool.dichotomy (u.id == uid) with h | h <;> simp [h])
    | toggleActiveOp uid =>
      rw [step_toggleActiveOp]
      rcases toggle_active_shape uid db with hs | hs <;> rw [hs]
      · exact hInv
      · exact adminInv_users_map db hInv
          (fun u _ => by rcases Bool.dichotomy (u.id == uid) with h | h <;> simp [h])
          (fun u _ _ => by rcases Bool.dichotomy (u.id == uid) with h | h <;> simp [h])
    | deleteUserOp uid =>
      rw [step_deleteUserOp]
      rcases delete_user_shape uid db with hs | ⟨u, hfind, hadm, hs⟩ <;> rw [hs]
      · exact hInv
      · have humem : u ∈ db.users := List.mem_of_find?_eq_some hfind
        have huid : u.id = uid := by
          have := List.find?_some hfind
          simpa using this
        refine adminInv_users_filter db hInv ?_
        intro v hv hvadm
        by_cases hveq : v.id = uid
        · have hvu : v = u := pairwise_key_unique (k := User.id) hWF.2.2.1 hv humem
            (by rw [hveq, huid])
          rw [hvu] at hvadm
          rw [hvadm] at hadm
          cases hadm
        · simpa using hveq
    | adminSettingsOp vid nu ne b =>
      rw [step_adminSettingsOp]
      rcases admin_settings_shape vid nu ne b db with hs | ⟨cu, hfind, hcadm, hs⟩ <;>
        rw [hs]
      · exact hInv
      · have hcumem : cu ∈ db.users := List.mem_of_find?_eq_some hfind
        have hcuid : cu.id = vid := by
          have := List.find?_some hfind
          simpa using this
        have hNR : (cu.is_admin && nu != cu.username) = false := by
          have h0 : renamesAdmin (Op.adminSettingsOp vid nu ne b) db =
              (match findUser db.users vid with
                | some u => u.is_admin && nu != u.username
                | none => false) := rfl
          rw [h0, hfind] at hNoRename
          exact hNoRename
        have hnu : nu = cu.username := by
          rw [hcadm] at hNR
          simpa using hNR
        refine adminInv_users_map db hInv
          (fun v _ => by rcases Bool.dichotomy (v.id == vid) with h | h <;> simp [h]) ?_
        intro v hv hvadm
        rcases Bool.dichotomy (v.id == vid) with h | h
        · simp [h]
        · have hvid : v.id = vid := by simpa using h
          have hvcu : v = cu := pairwise_key_unique (k := User.id) hWF.2.2.1 hv hcumem
            (by rw [hvid, hcuid])
          show (if (v.id == vid) = true then
              { v with username := nu, email := ne, bio := b } else v).username =
            v.username
          rw [if_pos h, hvcu]
          exact hnu
  · unfold ensure_admin_exists
    cases hf : db₀.users.find? (fun u => u.username == adminUsername && u.is_admin) with
    | some u =>
      exfalso
      have hu := List.mem_of_find?_eq_some hf
      have hp := List.find?_some hf
      have hup : u.username = adminUsername ∧ u.is_admin = true := by simpa using hp
      exact hMissing u hu hup
    | none =>
      exact ⟨_, List.mem_append.mpr (Or.inr (List.mem_singleton.mpr rfl)), rfl, rfl⟩

theorem admin_invariant_amended_witness :
    adminInv (step (Op.toggleBlockOp 2) adminDB) :=
  (admin_invariant_amended (Op.toggleBlockOp 2) adminDB
    { users := [], messages := [], next_user_id := 1, next_message_id := 1 }
    (by decide) (by decide) (by decide) (by decide)).1

/-! ## C9: deleting a user cascades over their messages -/

/-- C9: `delete_user` refuses an admin target and changes nothing;
otherwise it removes every message whose sender or receiver is the target
together with the user row in one commit — afterwards no stored message
references the deleted id, every unrelated message survives, and every
other user survives. -/
theorem delete_user_cascades (userId : Nat) (db : DB) (u : User)
    (hfind : findUser db.users userId = some u) :
    (u.is_admin = true → delete_user userId db = (.forbidden, db)) ∧
    (u.is_admin = false →
      (delete_user userId db).1 = .ok ∧
      ((delete_user userId db).2.messages.filter
          (fun m => m.sender_id == userId || m.receiver_id == userId)).length = 0 ∧
      (∀ v ∈ (delete_user userId db).2.users, v.id ≠ userId) ∧
      (∀ m ∈ db.messages,
        (m.sender_id == userId || m.receiver_id == userId) = false →
        m ∈ (delete_user userId db).2.messages) ∧
      (∀ v ∈ db.users, v.id ≠ userId → v ∈ (delete_user userId db).2.users)) := by
  constructor
  · intro hadm
    unfold delete_user
    simp only [hfind]
    rw [if_pos hadm]
  · intro hadm
    have hshape : delete_user userId db =
        (.ok,
          { db with
            messages :=
              db.messages.filter
                (fun m => !(m.sender_id == userId || m.receiver_id == userId))
            users := db.users.filter (fun v => v.id != userId) }) := by
      unfold delete_user
      simp only [hfind]
      rw [if_neg (by rw [hadm]; simp)]
    rw [hshape]
    refine ⟨rfl, ?_, ?_, ?_, ?_⟩
    · have hnil : ((db.messages.filter
          (fun m => !(m.sender_id == userId || m.receiver_id == userId))).filter
            (fun m => m.sender_id == userId || m.receiver_id == userId)) = [] := by
        rw [List.filter_eq_nil_iff]
        intro a ha
        have h2 := (List.mem_filter.mp ha).2
        simp only [Bool.not_eq_true'] at h2
        simp [h2]
      show ((db.messages.filter
          (fun m => !(m.sender_id == userId || m.receiver_id == userId))).filter
            (fun m => m.sender_id == userId || m.receiver_id == userId)).length = 0
      rw [hnil]
      rfl
    · intro v hv
      have h2 := (List.mem_filter.mp hv).2
      simpa using h2
    · intro m hm href
      exact List.mem_filter.mpr ⟨hm, by simp [href]⟩
    · intro v hv hne
      exact List.mem_filter.mpr ⟨hv, by simpa using hne⟩

theorem delete_user_cascades_witness :
    (delete_user 2 sampleDB).1 = DeleteUserOutcome.ok ∧
      ((delete_user 2 sampleDB).2.messages.filter
          (fun m => m.sender_id == 2 || m.receiver_id == 2)).length = 0 :=
  ⟨((delete_user_cascades 2 sampleDB bobU (by decide)).2 rfl).1,
   ((delete_user_cascades 2 sampleDB bobU (by decide)).2 rfl).2.1⟩

end Chatnay
